import Mathlib

/-!
# Verification of the WFC texture synthesizer core (Loethor/wfc-ts)

Shallow embedding of the algorithmic core of the repository:

* `tileExtractor.ts` — `TileExtractor.generate`: toroidal NxN window scan with
  first-seen deduplication and frequency tallying;
* `tileSet.ts` — `precomputeOverlapSignatures` / `computeNeighbors`: overlap
  signatures and the adjacency oracle;
* `wfcGenerator.ts` (the developed draft of `WFCGenerator`, the one with
  history, snapshots and backtracking) — grid initialization, seeding,
  collapse with one-step look-ahead, constraint propagation, and the
  adaptive backtracker.

TypeScript `ImageData.data` (flat RGBA byte array) is modelled as `List Nat`;
the string signatures produced by `join(',')` over decimal numerals are
modelled as the underlying `List Nat` (the comma-join of decimal numerals is
injective, so equality of the joined strings coincides with equality of the
number lists).  `Math.random()` values are modelled as an explicit stream of
exact fractions consumed in call order, since the source draws every random
value from the ambient global `Math.random` (there is no seed parameter
anywhere in the repository).  JS `Set<number>` iteration order is insertion
order, so possibility sets are modelled as ordered duplicate-free `List Nat`.
-/

namespace WfcTs

/-! ## Images and the pattern extractor (`tileExtractor.ts`) -/

/-- An RGBA raster, mirroring the fields of a TS `ImageData`: `data` is the
flat channel-byte array, row-major, pixel `(x, y)` occupying the four bytes
starting at `(y * width + x) * 4`. -/
structure ImageDataL where
  width : Nat
  height : Nat
  data : List Nat
  deriving DecidableEq, Repr

/-- The four channel bytes of pixel `(x, y)`, as read by
`ctx.getImageData(x, y, 1, 1)` in the source. -/
def channelsAt (img : ImageDataL) (x y : Nat) : List Nat :=
  let idx := (y * img.width + x) * 4
  [img.data.getD idx 0, img.data.getD (idx + 1) 0,
   img.data.getD (idx + 2) 0, img.data.getD (idx + 3) 0]

/-- The flat channel contents of the NxN window with origin `(x, y)`:
`TileExtractor.generate` copies pixel `((x+dx) mod W, (y+dy) mod H)` of the
sample onto position `(dx, dy)` of the window canvas and then hashes the
window canvas row-major. -/
def windowAt (img : ImageDataL) (n x y : Nat) : List Nat :=
  (List.range n).flatMap fun dy =>
    (List.range n).flatMap fun dx =>
      channelsAt img ((x + dx) % img.width) ((y + dy) % img.height)

/-- Scan origins in source order: `for (y = 0; y < H; y++) for (x = 0; x < W; x++)`. -/
def scanOrigins (w h : Nat) : List (Nat × Nat) :=
  (List.range h).flatMap fun y => (List.range w).map fun x => (x, y)

/-- The window contents at every scan origin, in scan order. -/
def scanWindows (img : ImageDataL) (n : Nat) : List (List Nat) :=
  (scanOrigins img.width img.height).map fun o => windowAt img n o.1 o.2

/-- First-seen deduplication: the source keeps a `seen` set of window hashes
and pushes a window onto `tiles` only at the first occurrence of its hash. -/
def firstSeenFrom {α : Type} [DecidableEq α] (seen : List α) : List α → List α
  | [] => []
  | a :: l =>
      if a ∈ seen then firstSeenFrom seen l
      else a :: firstSeenFrom (a :: seen) l

/-- The deduplicated pattern list returned by `TileExtractor.generate`
(`tiles`, in first-seen scan order; tile id = position in this list). -/
def extractPatterns (img : ImageDataL) (n : Nat) : List (List Nat) :=
  firstSeenFrom [] (scanWindows img n)

/-- Per-tile frequencies: `frequencyMap` counts every occurrence of a window
hash during the scan, and `tileIdFrequencies` re-keys those counts by
tile id.  Entry `i` is the frequency of pattern `i`. -/
def extractFrequencies (img : ImageDataL) (n : Nat) : List Nat :=
  (extractPatterns img n).map fun p => (scanWindows img n).count p

/-! ## Tiles and the adjacency oracle (`tileSet.ts`) -/

/-- A tile as handed to `TileSet`: `size` is `pixelData.width` (tiles are
square) and `data` is the flat RGBA byte array of `pixelData.data`. -/
structure TileE where
  id : Nat
  size : Nat
  data : List Nat
  deriving DecidableEq, Repr

/-- `rightOverlap` signature: columns `1 .. size-1`, all rows, in row-major
order (`for r; for c = 1 ..`), four channel bytes per pixel. -/
def sigRight (t : TileE) : List Nat :=
  (List.range t.size).flatMap fun r =>
    (List.range (t.size - 1)).flatMap fun c0 =>
      let idx := (r * t.size + (c0 + 1)) * 4
      [t.data.getD idx 0, t.data.getD (idx + 1) 0,
       t.data.getD (idx + 2) 0, t.data.getD (idx + 3) 0]

/-- `leftOverlap` signature: columns `0 .. size-2`, all rows. -/
def sigLeft (t : TileE) : List Nat :=
  (List.range t.size).flatMap fun r =>
    (List.range (t.size - 1)).flatMap fun c =>
      let idx := (r * t.size + c) * 4
      [t.data.getD idx 0, t.data.getD (idx + 1) 0,
       t.data.getD (idx + 2) 0, t.data.getD (idx + 3) 0]

/-- `downOverlap` signature: rows `1 .. size-1`, all columns. -/
def sigDown (t : TileE) : List Nat :=
  (List.range (t.size - 1)).flatMap fun r0 =>
    (List.range t.size).flatMap fun c =>
      let idx := ((r0 + 1) * t.size + c) * 4
      [t.data.getD idx 0, t.data.getD (idx + 1) 0,
       t.data.getD (idx + 2) 0, t.data.getD (idx + 3) 0]

/-- `upOverlap` signature: rows `0 .. size-2`, all columns. -/
def sigUp (t : TileE) : List Nat :=
  (List.range (t.size - 1)).flatMap fun r =>
    (List.range t.size).flatMap fun c =>
      let idx := (r * t.size + c) * 4
      [t.data.getD idx 0, t.data.getD (idx + 1) 0,
       t.data.getD (idx + 2) 0, t.data.getD (idx + 3) 0]

/-- Per-tile adjacency rule record (`AdjacencyRules` in `tileSet.ts`). -/
structure AdjacencyRulesE where
  up : List Nat
  down : List Nat
  left : List Nat
  right : List Nat
  deriving DecidableEq, Repr

inductive Dir where
  | up | down | left | right
  deriving DecidableEq, Repr

/-- `getOppositeDirection` of `wfcGenerator.ts`. -/
def oppositeDir : Dir → Dir
  | Dir.up => Dir.down
  | Dir.down => Dir.up
  | Dir.left => Dir.right
  | Dir.right => Dir.left

/-- Field access `rules[dir]`. -/
def dirGet (r : AdjacencyRulesE) : Dir → List Nat
  | Dir.up => r.up
  | Dir.down => r.down
  | Dir.left => r.left
  | Dir.right => r.right

/-- The rule record `computeNeighbors` builds for tile `tA`: for each
direction and every tile `tB` of the set (including `tB = tA`), `tB.id` is
added when the relevant signatures coincide.  The JS `Set` is filled in
tile-list order and read back with `Array.from`, which (ids being unique in a
`TileSet`) is the order-preserving `filter` below. -/
def rulesFor (tiles : List TileE) (tA : TileE) : AdjacencyRulesE where
  up := (tiles.filter fun tB => sigUp tA = sigDown tB).map TileE.id
  down := (tiles.filter fun tB => sigDown tA = sigUp tB).map TileE.id
  left := (tiles.filter fun tB => sigLeft tA = sigRight tB).map TileE.id
  right := (tiles.filter fun tB => sigRight tA = sigLeft tB).map TileE.id

/-- `computeNeighbors`: the adjacency map as an association list in tile
order (JS `Map` preserves insertion order). -/
def computeNeighborsE (tiles : List TileE) : List (Nat × AdjacencyRulesE) :=
  tiles.map fun tA => (tA.id, rulesFor tiles tA)

/-- `Map.get` on the adjacency map (`this.neighbors.get(id)` /
`this.adjacencyRules.get(id)`). -/
def adjacencyGet (tiles : List TileE) (id : Nat) : Option AdjacencyRulesE :=
  ((computeNeighborsE tiles).find? fun e => e.1 = id).map Prod.snd

/-- Build the `TileSet` tiles from the extractor output, as `AppController`
does: tile `i` is the `i`-th extracted pattern (ids in first-seen order). -/
def tilesOf (img : ImageDataL) (n : Nat) : List TileE :=
  (extractPatterns img n).enum.map fun e => ⟨e.1, n, e.2⟩

end WfcTs

namespace WfcTs

/-! ## The solver (`wfcGenerator.ts`, developed draft of `WFCGenerator`) -/

/-- A grid cell.  The TS `Cell` also stores its own `(x, y)`; here the
coordinates are the index into the grid, used wherever the source reads
`cell.x` / `cell.y`. -/
structure Cell where
  collapsed : Bool
  tileId : Option Nat
  possibleTiles : List Nat
  deriving DecidableEq, Repr

/-- Grid position `(x, y)`. -/
abbrev Pos := Nat × Nat

/-- The solver grid: `cells (x, y)` is `this.grid[y][x]`. -/
structure Grid where
  width : Nat
  height : Nat
  cells : Pos → Cell

/-- Write one cell (TS mutates `this.grid[y][x]` in place). -/
def setCell (g : Grid) (p : Pos) (c : Cell) : Grid :=
  { g with cells := fun q => if q = p then c else g.cells q }

/-- `initializeGrid`: every cell uncollapsed with all tile ids possible. -/
def initializeGridE (tileIds : List Nat) (w h : Nat) : Grid :=
  ⟨w, h, fun _ => ⟨false, none, tileIds⟩⟩

/-- `getNeighbors`, in source order up, down, left, right with the same
bounds checks (`Nat` subtraction makes `h - 1` behave as JS does for the
grid sizes that occur, i.e. `y < h - 1` rejects the last row). -/
def getNeighborsE (g : Grid) (p : Pos) : List (Dir × Pos) :=
  (if 0 < p.2 then [(Dir.up, (p.1, p.2 - 1))] else []) ++
  (if p.2 < g.height - 1 then [(Dir.down, (p.1, p.2 + 1))] else []) ++
  (if 0 < p.1 then [(Dir.left, (p.1 - 1, p.2))] else []) ++
  (if p.1 < g.width - 1 then [(Dir.right, (p.1 + 1, p.2))] else [])

/-- The adjacency map as the generator holds it
(`this.adjacencyRules.get : Map.get`, `none` when the id is absent). -/
abbrev RulesMap := Nat → Option AdjacencyRulesE

/-- One constraining step of `computeValidTilesForCell`'s neighbour loop:
a collapsed neighbour with a rule entry intersects `valid` with the tiles it
allows in the opposite direction; everything else leaves `valid` alone. -/
def constrainByNeighbor (g : Grid) (rules : RulesMap)
    (valid : List Nat) (dn : Dir × Pos) : List Nat :=
  let nbr := g.cells dn.2
  if nbr.collapsed then
    match nbr.tileId with
    | none => valid
    | some tid =>
        match rules tid with
        | none => valid
        | some r =>
            valid.filter fun t => t ∈ dirGet r (oppositeDir dn.1)
  else valid

/-- `computeValidTilesForCell`: intersect the cell's current possibilities
with what every collapsed orthogonal neighbour allows. -/
def computeValidTilesForCellE (g : Grid) (rules : RulesMap) (p : Pos) :
    List Nat :=
  (getNeighborsE g p).foldl (constrainByNeighbor g rules) (g.cells p).possibleTiles

/-- Neighbours pushed after a cell's possibility set changed: the uncollapsed
neighbours not yet visited (`!neighbor.collapsed && !visited.has(key)`). -/
def pushNeighbors (g : Grid) (p : Pos) (visited : List Pos) : List Pos :=
  (getNeighborsE g p).filterMap fun dn =>
    if ¬(g.cells dn.2).collapsed ∧ dn.2 ∉ visited then some dn.2 else none

/-- The grid after the worklist assigns the narrowed possibility set of the
cell at `p`. -/
def narrowCell (g : Grid) (rules : RulesMap) (p : Pos) : Grid :=
  setCell g p
    { g.cells p with possibleTiles := computeValidTilesForCellE g rules p }

/-- The worklist loop of `propagateConstraints`.  The TS stack pushes at the
back and pops from the back; here the list head is the top of the stack, so
pushing a batch appends its reverse in front.  `fuel` bounds the number of
loop iterations; the source loop performs at most `4 + 4·w·h` iterations
(each iteration pops one entry, and entries are pushed only at the start
(≤ 4) or when a cell is first visited (≤ 4 per cell)), so the top-level
entry point's fuel of `5·(w·h + 1)` is never exhausted. -/
def propagateLoopE (rules : RulesMap) :
    Nat → Grid → List Pos → List Pos → Grid
  | 0, g, _, _ => g
  | _ + 1, g, [], _ => g
  | fuel + 1, g, p :: stack, visited =>
    if p ∈ visited then propagateLoopE rules fuel g stack visited
    else if (g.cells p).collapsed then
      propagateLoopE rules fuel g stack (p :: visited)
    else if (computeValidTilesForCellE g rules p).length <
        (g.cells p).possibleTiles.length then
      if (computeValidTilesForCellE g rules p).length = 0 then
        narrowCell g rules p
      else
        propagateLoopE rules fuel (narrowCell g rules p)
          ((pushNeighbors (narrowCell g rules p) p (p :: visited)).reverse ++ stack)
          (p :: visited)
    else propagateLoopE rules fuel g stack (p :: visited)

/-- `propagateConstraints(startCell)`: seed the stack with the uncollapsed
orthogonal neighbours of the start cell and run the worklist. -/
def propagateConstraintsE (g : Grid) (rules : RulesMap) (start : Pos) : Grid :=
  let initStack := (getNeighborsE g start).filterMap fun dn =>
    if ¬(g.cells dn.2).collapsed then some dn.2 else none
  propagateLoopE rules (5 * (g.width * g.height + 1)) g initStack.reverse []

/-- `getContradictionCell`: first (row-major) uncollapsed cell with an empty
possibility set. -/
def getContradictionCellE (g : Grid) : Option Pos :=
  (scanOrigins g.width g.height).find? fun p =>
    ¬(g.cells p).collapsed ∧ (g.cells p).possibleTiles.length = 0

/-- `isFullyCollapsed`. -/
def isFullyCollapsedE (g : Grid) : Bool :=
  (scanOrigins g.width g.height).all fun p => (g.cells p).collapsed

/-! ### Collapse chooser (`collapseCell`) -/

/-- The candidate weights built by `collapseCell`:
`const weights = possibilities.map(() => 1)` — uniform, every candidate
weight is 1 (frequency and connectivity are ignored here). -/
def collapseWeights (possibilities : List Nat) : List ℚ :=
  possibilities.map fun _ => 1

/-- The candidate order `collapseCell` tries: the source sorts by the
comparator `Math.random() * (b.weight - a.weight)`; all weights being 1 the
comparator is identically 0, and the ES2019+ stable `Array.prototype.sort`
leaves the array in its original order, so the candidates are simply the
possibilities in the cell's stored order. -/
def weightedTileOrder (possibilities : List Nat) : List Nat :=
  possibilities

/-- The one-step look-ahead test for candidate `id` at cell `p`: every
uncollapsed orthogonal neighbour must keep at least one possibility
compatible with `id` (`rules[direction]`); a missing rule entry skips the
neighbour, as does a collapsed neighbour. -/
def lookaheadOkE (g : Grid) (rules : RulesMap) (p : Pos) (id : Nat) : Bool :=
  (getNeighborsE g p).all fun dn =>
    if (g.cells dn.2).collapsed then true
    else
      match rules id with
      | none => true
      | some r =>
          ¬((g.cells dn.2).possibleTiles.filter
              fun tid => tid ∈ dirGet r dn.1).isEmpty

/-- The tile `collapseCell` picks: the first candidate (in weighted order,
which is the original possibility order) passing look-ahead, else the first
possibility (`possibilities[0]`). -/
def collapseChoiceE (g : Grid) (rules : RulesMap) (p : Pos) : Nat :=
  let possibilities := (g.cells p).possibleTiles
  match (weightedTileOrder possibilities).find? (lookaheadOkE g rules p) with
  | some id => id
  | none => possibilities.headD 0

/-! ### History, snapshots, backtracking -/

structure HistoryEntry where
  x : Nat
  y : Nat
  tileId : Nat
  deriving DecidableEq, Repr

/-- A full-grid snapshot plus the history length at capture time. -/
structure SnapshotE where
  grid : Grid
  historyLength : Nat

/-- The generator's mutable state (the class fields that the algorithm
reads and writes; `tileIds` is the id list `initializeGrid` uses, `rules`
is `this.adjacencyRules`). -/
structure GenState where
  width : Nat
  height : Nat
  tileIds : List Nat
  rules : RulesMap
  grid : Grid
  history : List HistoryEntry
  snapshots : List SnapshotE
  recentContradictions : Nat

/-- `saveSnapshot`: push a deep copy, keep at most the last 5 (FIFO). -/
def saveSnapshotE (st : GenState) : GenState :=
  let snaps := st.snapshots ++ [⟨st.grid, st.history.length⟩]
  { st with snapshots := if 5 < snaps.length then snaps.drop 1 else snaps }

/-- `recordCollapse`: append the decision, snapshot every 10th decision. -/
def recordCollapseE (st : GenState) (p : Pos) (tileId : Nat) : GenState :=
  let st := { st with history := st.history ++ [⟨p.1, p.2, tileId⟩] }
  if st.history.length % 10 = 0 then saveSnapshotE st else st

/-- `collapseCell` acting on the generator state: choose, commit, record. -/
def collapseCellE (st : GenState) (p : Pos) : GenState :=
  let t := collapseChoiceE st.grid st.rules p
  let g' := setCell st.grid p ⟨true, some t, [t]⟩
  recordCollapseE { st with grid := g' } p t

/-- Forcing a replayed history entry
(`cell.collapsed = true; cell.tileId = entry.tileId;
cell.possibleTiles = new Set([entry.tileId])` followed by propagation). -/
def forceReplayE (rules : RulesMap) (g : Grid) (e : HistoryEntry) : Grid :=
  let g' := setCell g (e.x, e.y) ⟨true, some e.tileId, [e.tileId]⟩
  propagateConstraintsE g' rules (e.x, e.y)

/-- The adaptive rollback depth of `backtrack`
(`maxBacktrackDepth = 32`). -/
def stepsToRemoveE (rc len : Nat) : Nat :=
  if 6 < rc then min 32 (len / 2)
  else if 3 < rc then min 8 len
  else if 1 < rc then min 4 len
  else min 2 len

/-- The reverse scan
`for (i = snapshots.length - 1; i >= 0; i--) if (historyLength <= n)` with
`splice(i + 1)`: returns the retained prefix (up to and including the found
snapshot) and the found snapshot. -/
def findSnapshotE : List SnapshotE → Nat → Option (List SnapshotE × SnapshotE)
  | [], _ => none
  | s :: rest, n =>
      match findSnapshotE rest n with
      | some (kept, f) => some (s :: kept, f)
      | none => if s.historyLength ≤ n then some ([s], s) else none

/-- `backtrack`: pop an adaptive number of history entries, restore the
nearest snapshot at or before the new history length and replay past it, or
reinitialize and replay everything when no snapshot qualifies. -/
def backtrackE (st : GenState) : GenState :=
  if st.history.length = 0 then st
  else
    let steps := stepsToRemoveE st.recentContradictions st.history.length
    let history' := st.history.take (st.history.length - steps)
    match findSnapshotE st.snapshots history'.length with
    | some (kept, snap) =>
        let g := (history'.drop snap.historyLength).foldl
          (forceReplayE st.rules) snap.grid
        { st with grid := g, history := history', snapshots := kept }
    | none =>
        let g := history'.foldl (forceReplayE st.rules)
          (initializeGridE st.tileIds st.width st.height)
        { st with grid := g, history := history' }

/-- Outcome of the post-propagation check in `generate`'s main loop. -/
inductive StepOutcome where
  | backtracked | attemptFailed | collapsedOk
  deriving DecidableEq, Repr

/-- The contradiction-handling block of `generate`'s main loop (after
propagation): on contradiction bump `recentContradictions` and backtrack if
history and budget allow, else break the attempt; on success decrement
`recentContradictions` (`Math.max(0, rc - 1)`, which is `Nat` monus). -/
def contradictionStepE (st : GenState) (backtracks maxBacktracks : Nat) :
    GenState × Nat × StepOutcome :=
  match getContradictionCellE st.grid with
  | some _ =>
      let st1 := { st with recentContradictions := st.recentContradictions + 1 }
      if 0 < st1.history.length ∧ backtracks < maxBacktracks then
        (backtrackE st1, backtracks + 1, StepOutcome.backtracked)
      else (st1, backtracks, StepOutcome.attemptFailed)
  | none =>
      ({ st with recentContradictions := st.recentContradictions - 1 },
        backtracks, StepOutcome.collapsedOk)

/-! ### Seeding (`generate`, start of each attempt) -/

/-- A `Math.random()` output, modelled as the exact fraction
`num / den` with `0 ≤ num < den`. -/
structure RandVal where
  num : Nat
  den : Nat
  deriving DecidableEq, Repr

/-- `Math.floor(q * n)` for a `Math.random()` value `q = num/den`:
`⌊(num/den)·n⌋ = num·n / den` in integer arithmetic. -/
def randFloor (q : RandVal) (n : Nat) : Nat :=
  q.num * n / q.den

/-- Draw the next `Math.random()` value from the modelled ambient stream. -/
def rngNext : List RandVal → RandVal × List RandVal
  | [] => (⟨0, 1⟩, [])
  | q :: rest => (q, rest)

/-- The start of an attempt in `generate` (lines up to the main loop):
reinitialize grid/history/snapshots/`recentContradictions`, then collapse a
single random cell to a random tile and record it.  No propagation happens
here and `seedEdges` is not called (it is dead code in the source). -/
def attemptInitE (tileIds : List Nat) (rules : RulesMap) (w h : Nat)
    (rng : List RandVal) : GenState × List RandVal :=
  let grid := initializeGridE tileIds w h
  let (q1, rng) := rngNext rng
  let (q2, rng) := rngNext rng
  let (q3, rng) := rngNext rng
  let rx := randFloor q1 w
  let ry := randFloor q2 h
  let allTileIds := (grid.cells (rx, ry)).possibleTiles
  let randomTile := allTileIds.getD (randFloor q3 allTileIds.length) 0
  let grid' := setCell grid (rx, ry) ⟨true, some randomTile, [randomTile]⟩
  let st : GenState :=
    ⟨w, h, tileIds, rules, grid', [], [], 0⟩
  (recordCollapseE st (rx, ry) randomTile, rng)

/-! ### Entropy weights (`findMinEntropyCell` and `computeTileWeights`) -/

/-- `computeTileWeights`: connectivity weight = number of valid neighbours
over the four directions, plus one; a tile without a rule entry gets no map
entry, which `findMinEntropyCell` reads back as
`this.tileWeights.get(tileId) || 1`, i.e. 1. -/
def computeTileWeightsE (tiles : List TileE) (id : Nat) : Nat :=
  match adjacencyGet tiles id with
  | none => 1
  | some r => r.up.length + r.down.length + r.left.length + r.right.length + 1

/-- `getFrequencyWeight`: `this.tileFrequencies.get(tileId) || 1` (JS `||`
maps both a missing entry and a zero count to 1). -/
def getFrequencyWeightE (freqs : List (Nat × Nat)) (id : Nat) : Nat :=
  match freqs.lookup id with
  | none => 1
  | some f => if f = 0 then 1 else f

/-- The per-tile weight used inside `findMinEntropyCell`'s entropy sum:
`(frequency * 3 + connectivity) / 4` (exact in rationals; the float division
by 4 is exact as well). -/
def entropyWeightE (tiles : List TileE) (freqs : List (Nat × Nat))
    (id : Nat) : ℚ :=
  ((getFrequencyWeightE freqs id : ℚ) * 3 + (computeTileWeightsE tiles id : ℚ)) / 4

/-- The weight formula claimed (and specified in §4.3) for the COLLAPSE
chooser.  Modelled from the spec: `w(t) = (3·frequency[t] +
connectivity_weight[t]) / 4`, for comparison with `collapseWeights`. -/
def specBlendWeights (tiles : List TileE) (freqs : List (Nat × Nat))
    (possibilities : List Nat) : List ℚ :=
  possibilities.map fun t => (3 * (getFrequencyWeightE freqs t : ℚ) +
    (computeTileWeightsE tiles t : ℚ)) / 4

/-- The tile frequencies of a tile set extracted from a sample.  Modelled
from the spec: the generator reads `tileSet.getTileFrequencies()`, whose
implementation is not under `src/` (no `TileSet` draft defines it); §3
defines `frequency[id]` as the occurrence count from the periodic scan,
which is exactly what `TileExtractor.generate`'s `tileIdFrequencies`
returns. -/
def tileFrequenciesOf (img : ImageDataL) (n : Nat) : List (Nat × Nat) :=
  (extractFrequencies img n).enum

/-! ## Invariants and relations stated over the embedding -/

/-- The frame relation a propagation pass respects: grid size unchanged,
every cell's collapsed flag and tileId unchanged, possibility sets only
shrink, and cells that were collapsed are untouched entirely. -/
def FrameLe (g g' : Grid) : Prop :=
  g'.width = g.width ∧ g'.height = g.height ∧
  ∀ p : Pos,
    (g'.cells p).collapsed = (g.cells p).collapsed ∧
    (g'.cells p).tileId = (g.cells p).tileId ∧
    (g'.cells p).possibleTiles ⊆ (g.cells p).possibleTiles ∧
    ((g.cells p).collapsed = true → g'.cells p = g.cells p)

/-- The collapsed-cell invariant of §3: every collapsed cell's possibility
set is exactly the singleton of its tile id. -/
def CollapsedInv (g : Grid) : Prop :=
  ∀ p : Pos, (g.cells p).collapsed = true →
    ∃ t, (g.cells p).tileId = some t ∧ (g.cells p).possibleTiles = [t]

/-! ## Concrete samples used as witnesses -/

/-- A two-tile rule map where each tile is compatible only with itself, in
every direction. -/
def rulesAB : RulesMap := fun t =>
  if t = 0 then some ⟨[0], [0], [0], [0]⟩
  else if t = 1 then some ⟨[1], [1], [1], [1]⟩ else none

/-- A single-tile rule map (tile 0 self-compatible everywhere). -/
def rulesSolo : RulesMap := fun t =>
  if t = 0 then some ⟨[0], [0], [0], [0]⟩ else none

/-- A 3x3 uniform blue sample (frequency of its single tile at N = 2 is 9). -/
def blueSample3 : ImageDataL :=
  ⟨3, 3, [0,0,255,255, 0,0,255,255, 0,0,255,255,
          0,0,255,255, 0,0,255,255, 0,0,255,255,
          0,0,255,255, 0,0,255,255, 0,0,255,255]⟩

/-- A 2x2 uniform blue sample (RGBA 0,0,255,255 everywhere). -/
def blueSample : ImageDataL :=
  ⟨2, 2, [0,0,255,255, 0,0,255,255, 0,0,255,255, 0,0,255,255]⟩

/-- The single tile extracted from `blueSample` at N = 2. -/
def blueTile : TileE :=
  ⟨0, 2, [0,0,255,255, 0,0,255,255, 0,0,255,255, 0,0,255,255]⟩

/-- A 2x2 red/green checkerboard sample. -/
def checkerSample : ImageDataL :=
  ⟨2, 2, [255,0,0,255, 0,255,0,255, 0,255,0,255, 255,0,0,255]⟩

/-- First extracted checkerboard tile (origin (0,0): red top-left). -/
def checkerTile0 : TileE :=
  ⟨0, 2, [255,0,0,255, 0,255,0,255, 0,255,0,255, 255,0,0,255]⟩

/-- Second extracted checkerboard tile (origin (1,0): green top-left). -/
def checkerTile1 : TileE :=
  ⟨1, 2, [0,255,0,255, 255,0,0,255, 255,0,0,255, 0,255,0,255]⟩

example : tilesOf checkerSample 2 = [checkerTile0, checkerTile1] := by decide

/-! ## Lemmas about first-seen deduplication -/

theorem mem_firstSeenFrom {α : Type} [DecidableEq α] :
    ∀ (l seen : List α) (x : α),
      x ∈ firstSeenFrom seen l ↔ x ∈ l ∧ x ∉ seen
  | [], seen, x => by simp [firstSeenFrom]
  | a :: l, seen, x => by
      by_cases ha : a ∈ seen
      · rw [firstSeenFrom, if_pos ha, mem_firstSeenFrom l seen x]
        constructor
        · exact fun ⟨h1, h2⟩ => ⟨List.mem_cons_of_mem a h1, h2⟩
        · rintro ⟨h1, h2⟩
          rcases List.mem_cons.1 h1 with rfl | h1
          · exact absurd ha h2
          · exact ⟨h1, h2⟩
      · rw [firstSeenFrom, if_neg ha]
        rw [List.mem_cons, mem_firstSeenFrom l (a :: seen) x]
        constructor
        · rintro (rfl | ⟨h1, h2⟩)
          · exact ⟨List.mem_cons_self _ _, ha⟩
          · exact ⟨List.mem_cons_of_mem a h1,
              fun hs => h2 (List.mem_cons_of_mem a hs)⟩
        · rintro ⟨h1, h2⟩
          rcases List.mem_cons.1 h1 with rfl | h1
          · exact Or.inl rfl
          · by_cases hxa : x = a
            · exact Or.inl hxa
            · exact Or.inr ⟨h1, fun hs => by
                rcases List.mem_cons.1 hs with rfl | hs
                · exact hxa rfl
                · exact h2 hs⟩

theorem nodup_firstSeenFrom {α : Type} [DecidableEq α] :
    ∀ (l seen : List α), (firstSeenFrom seen l).Nodup
  | [], seen => by simp [firstSeenFrom]
  | a :: l, seen => by
      by_cases ha : a ∈ seen
      · rw [firstSeenFrom, if_pos ha]; exact nodup_firstSeenFrom l seen
      · rw [firstSeenFrom, if_neg ha]
        refine List.nodup_cons.2 ⟨fun hmem => ?_, nodup_firstSeenFrom l (a :: seen)⟩
        exact ((mem_firstSeenFrom l (a :: seen) a).1 hmem).2 (List.mem_cons_self _ _)

/-- Index of the first occurrence of `x` in `l` (the scan position at which
the deduplicating map first saw this key). -/
def firstOccurrence {α : Type} [DecidableEq α] (l : List α) (x : α) : Nat :=
  l.findIdx fun q => q = x

theorem firstOccurrence_cons_self {α : Type} [DecidableEq α] (a : α)
    (l : List α) : firstOccurrence (a :: l) a = 0 := by
  simp [firstOccurrence, List.findIdx_cons]

theorem firstOccurrence_cons_ne {α : Type} [DecidableEq α] {a x : α}
    (l : List α) (h : a ≠ x) :
    firstOccurrence (a :: l) x = firstOccurrence l x + 1 := by
  simp [firstOccurrence, List.findIdx_cons, h]

/-- First-seen order: the elements kept by the scan, read back through the
index of their first occurrence in the scanned list, are strictly
increasing. -/
theorem pairwise_firstOccurrence_firstSeenFrom {α : Type} [DecidableEq α] :
    ∀ (l seen : List α),
      List.Pairwise (fun x y => firstOccurrence l x < firstOccurrence l y)
        (firstSeenFrom seen l)
  | [], seen => by simp [firstSeenFrom]
  | a :: l, seen => by
      by_cases ha : a ∈ seen
      · rw [firstSeenFrom, if_pos ha]
        refine (pairwise_firstOccurrence_firstSeenFrom l seen).imp_of_mem ?_
        intro x y hx hy hlt
        have hxa : a ≠ x :=
          fun h => ((mem_firstSeenFrom l seen x).1 hx).2 (h ▸ ha)
        have hya : a ≠ y :=
          fun h => ((mem_firstSeenFrom l seen y).1 hy).2 (h ▸ ha)
        rw [firstOccurrence_cons_ne _ hxa, firstOccurrence_cons_ne _ hya]
        exact Nat.succ_lt_succ hlt
      · rw [firstSeenFrom, if_neg ha]
        refine List.Pairwise.cons ?_ ?_
        · intro y hy
          have hya : a ≠ y := fun h =>
            ((mem_firstSeenFrom l (a :: seen) y).1 hy).2 (h ▸ List.mem_cons_self _ _)
          rw [firstOccurrence_cons_self, firstOccurrence_cons_ne _ hya]
          exact Nat.succ_pos _
        · refine (pairwise_firstOccurrence_firstSeenFrom l (a :: seen)).imp_of_mem ?_
          intro x y hx hy hlt
          have hxa : a ≠ x := fun h =>
            ((mem_firstSeenFrom l (a :: seen) x).1 hx).2 (h ▸ List.mem_cons_self _ _)
          have hya : a ≠ y := fun h =>
            ((mem_firstSeenFrom l (a :: seen) y).1 hy).2 (h ▸ List.mem_cons_self _ _)
          rw [firstOccurrence_cons_ne _ hxa, firstOccurrence_cons_ne _ hya]
          exact Nat.succ_lt_succ hlt

theorem scanWindows_length (img : ImageDataL) (n : Nat) :
    (scanWindows img n).length = img.width * img.height := by
  simp only [scanWindows, scanOrigins, List.length_map, List.length_flatMap]
  simp [Function.comp_def, Nat.mul_comm]

/-- The scan's distinct patterns are a permutation of `dedup` of the scan,
so counting each once covers the whole scan. -/
theorem extractPatterns_perm_dedup (img : ImageDataL) (n : Nat) :
    (extractPatterns img n).Perm (scanWindows img n).dedup := by
  refine (List.perm_ext_iff_of_nodup (nodup_firstSeenFrom _ _)
    (scanWindows img n).nodup_dedup).2 fun p => ?_
  rw [List.mem_dedup, mem_firstSeenFrom]
  simp

/-- The `List.count` we use agrees with the `countP` form underlying the
Mathlib dedup-count lemma (both `BEq` instances are lawful). -/
theorem count_eq_countP_decide (x : List Nat) (l : List (List Nat)) :
    l.count x = l.countP fun y => decide (y = x) := by
  rw [List.count]
  exact List.countP_congr fun a _ => by simp

theorem extractFrequencies_sum (img : ImageDataL) (n : Nat) :
    (extractFrequencies img n).sum = img.width * img.height := by
  have hcount : ∀ l : List (List Nat),
      (l.dedup.map fun x => l.countP fun y => decide (y = x)).sum = l.length :=
    fun l => List.sum_map_count_dedup_eq_length l
  have hperm := (extractPatterns_perm_dedup img n).map
    fun p => (scanWindows img n).count p
  rw [extractFrequencies, hperm.sum_eq]
  calc ((scanWindows img n).dedup.map
          fun p => (scanWindows img n).count p).sum
      = ((scanWindows img n).dedup.map
          fun p => (scanWindows img n).countP fun y => decide (y = p)).sum := by
        rw [List.map_congr_left fun p _ => count_eq_countP_decide p _]
    _ = (scanWindows img n).length := hcount _
    _ = img.width * img.height := scanWindows_length img n

/-! ## Lemmas about the adjacency oracle -/

/-- Looking up a present tile's id in an id-keyed association map built over
the tile list returns that tile's entry (ids are unique in a `TileSet`). -/
theorem find_assoc_of_mem {β : Type} (g : TileE → β) :
    ∀ (tiles : List TileE) (A : TileE),
      (tiles.map TileE.id).Nodup → A ∈ tiles →
      ((tiles.map fun t => (t.id, g t)).find? fun e => e.1 = A.id) =
        some (A.id, g A)
  | [], A, _, hA => absurd hA (List.not_mem_nil A)
  | t :: rest, A, hnd, hA => by
      rcases List.mem_cons.1 hA with rfl | hA
      · simp [List.find?]
      · have hne : t.id ≠ A.id := by
          intro h
          exact (List.nodup_cons.1 (by simpa using hnd)).1
            (h ▸ List.mem_map_of_mem TileE.id hA)
        have htl : (rest.map TileE.id).Nodup :=
          (List.nodup_cons.1 (by simpa using hnd)).2
        simp only [List.map_cons, List.find?, decide_eq_false hne]
        exact find_assoc_of_mem g rest A htl hA

theorem adjacencyGet_eq_rulesFor (tiles : List TileE) (A : TileE)
    (hnd : (tiles.map TileE.id).Nodup) (hA : A ∈ tiles) :
    adjacencyGet tiles A.id = some (rulesFor tiles A) := by
  rw [adjacencyGet, computeNeighborsE, find_assoc_of_mem _ tiles A hnd hA]
  rfl

/-- Membership in one direction list of `rulesFor` is exactly the signature
test, when ids are unique. -/
theorem mem_filter_map_id (tiles : List TileE) (B : TileE)
    (hnd : (tiles.map TileE.id).Nodup) (hB : B ∈ tiles) (q : TileE → Prop)
    [DecidablePred q] :
    (B.id ∈ (tiles.filter fun t => q t).map TileE.id) ↔ q B := by
  constructor
  · rintro h
    rcases List.mem_map.1 h with ⟨B', hB', hid⟩
    rcases List.mem_filter.1 hB' with ⟨hB'mem, hq⟩
    have : B' = B :=
      List.inj_on_of_nodup_map hnd hB'mem hB hid
    exact this ▸ (by simpa using hq)
  · intro hq
    exact List.mem_map_of_mem TileE.id (List.mem_filter.2 ⟨hB, by simpa using hq⟩)

/-! ## Lemmas about propagation -/

theorem frameLe_refl (g : Grid) : FrameLe g g :=
  ⟨rfl, rfl, fun _ => ⟨rfl, rfl, fun _ h => h, fun _ => rfl⟩⟩

theorem frameLe_trans {g1 g2 g3 : Grid} (h12 : FrameLe g1 g2)
    (h23 : FrameLe g2 g3) : FrameLe g1 g3 := by
  obtain ⟨hw12, hh12, hp12⟩ := h12
  obtain ⟨hw23, hh23, hp23⟩ := h23
  refine ⟨hw23.trans hw12, hh23.trans hh12, fun p => ?_⟩
  obtain ⟨hc12, ht12, hs12, hu12⟩ := hp12 p
  obtain ⟨hc23, ht23, hs23, hu23⟩ := hp23 p
  refine ⟨hc23.trans hc12, ht23.trans ht12, fun t ht => hs12 (hs23 ht), ?_⟩
  intro hcol
  have h2 : g2.cells p = g1.cells p := hu12 hcol
  have : (g2.cells p).collapsed = true := hc12.trans hcol
  exact (hu23 this).trans h2

theorem constrainByNeighbor_subset (g : Grid) (rules : RulesMap)
    (valid : List Nat) (dn : Dir × Pos) :
    constrainByNeighbor g rules valid dn ⊆ valid := by
  simp only [constrainByNeighbor]
  split
  · split
    · exact fun t ht => ht
    · split
      · exact fun t ht => ht
      · exact List.filter_subset' _
  · exact fun t ht => ht

theorem foldl_constrain_subset (g : Grid) (rules : RulesMap) :
    ∀ (l : List (Dir × Pos)) (init : List Nat),
      l.foldl (constrainByNeighbor g rules) init ⊆ init
  | [], _ => fun _ ht => ht
  | dn :: l, init => fun t ht =>
      constrainByNeighbor_subset g rules init dn
        (foldl_constrain_subset g rules l (constrainByNeighbor g rules init dn) ht)

theorem computeValid_subset (g : Grid) (rules : RulesMap) (p : Pos) :
    computeValidTilesForCellE g rules p ⊆ (g.cells p).possibleTiles :=
  foldl_constrain_subset g rules (getNeighborsE g p) (g.cells p).possibleTiles

theorem setCell_cells_self (g : Grid) (p : Pos) (c : Cell) :
    (setCell g p c).cells p = c := by
  simp [setCell]

theorem setCell_cells_ne (g : Grid) (p : Pos) (c : Cell) (q : Pos)
    (h : q ≠ p) : (setCell g p c).cells q = g.cells q := by
  simp [setCell, h]

theorem frameLe_narrowCell (g : Grid) (rules : RulesMap) (p : Pos)
    (hc : (g.cells p).collapsed = false) :
    FrameLe g (narrowCell g rules p) := by
  refine ⟨rfl, rfl, fun q => ?_⟩
  by_cases hq : q = p
  · subst hq
    rw [narrowCell, setCell_cells_self]
    exact ⟨rfl, rfl, computeValid_subset g rules q,
      fun h => absurd h (by simp [hc])⟩
  · rw [narrowCell, setCell_cells_ne _ _ _ _ hq]
    exact ⟨rfl, rfl, fun _ h => h, fun _ => rfl⟩

theorem propagateLoopE_frame (rules : RulesMap) :
    ∀ (fuel : Nat) (g : Grid) (stack visited : List Pos),
      FrameLe g (propagateLoopE rules fuel g stack visited)
  | 0, g, _, _ => frameLe_refl g
  | _ + 1, g, [], _ => frameLe_refl g
  | fuel + 1, g, p :: stack, visited => by
      rw [propagateLoopE]
      by_cases hv : p ∈ visited
      · rw [if_pos hv]
        exact propagateLoopE_frame rules fuel g stack visited
      · rw [if_neg hv]
        by_cases hc : (g.cells p).collapsed = true
        · rw [if_pos hc]
          exact propagateLoopE_frame rules fuel g stack (p :: visited)
        · rw [if_neg hc]
          have hc' : (g.cells p).collapsed = false := by
            simpa using hc
          by_cases hlen : (computeValidTilesForCellE g rules p).length <
              (g.cells p).possibleTiles.length
          · rw [if_pos hlen]
            have hstep : FrameLe g (narrowCell g rules p) :=
              frameLe_narrowCell g rules p hc'
            by_cases hz : (computeValidTilesForCellE g rules p).length = 0
            · rw [if_pos hz]
              exact hstep
            · rw [if_neg hz]
              exact frameLe_trans hstep
                (propagateLoopE_frame rules fuel (narrowCell g rules p) _ _)
          · rw [if_neg hlen]
            exact propagateLoopE_frame rules fuel g stack (p :: visited)

theorem propagateConstraintsE_frame (g : Grid) (rules : RulesMap)
    (start : Pos) : FrameLe g (propagateConstraintsE g rules start) :=
  propagateLoopE_frame rules _ g _ []

theorem mem_constrainByNeighbor (g : Grid) (rules : RulesMap)
    (valid : List Nat) (dn : Dir × Pos) (t : Nat) :
    t ∈ constrainByNeighbor g rules valid dn ↔
      t ∈ valid ∧ ∀ tid r, (g.cells dn.2).collapsed = true →
        (g.cells dn.2).tileId = some tid → rules tid = some r →
        t ∈ dirGet r (oppositeDir dn.1) := by
  simp only [constrainByNeighbor]
  by_cases hc : (g.cells dn.2).collapsed = true
  · rw [if_pos hc]
    cases htid : (g.cells dn.2).tileId with
    | none => simp [htid]
    | some tid =>
        cases hr : rules tid with
        | none =>
            simp only [htid, hr, Option.some.injEq]
            constructor
            · intro hmem
              refine ⟨hmem, fun tid1 r _ heq hr1 => ?_⟩
              subst heq
              rw [hr] at hr1
              cases hr1
            · exact fun h => h.1
        | some r =>
            simp only [htid, hr, List.mem_filter, decide_eq_true_eq,
              Option.some.injEq]
            constructor
            · rintro ⟨hmem, hdir⟩
              refine ⟨hmem, fun tid1 r1 _ heq hr1 => ?_⟩
              subst heq
              rw [hr] at hr1
              cases hr1
              exact hdir
            · rintro ⟨hmem, hall⟩
              exact ⟨hmem, hall tid r hc rfl hr⟩
  · have hc' : (g.cells dn.2).collapsed = false := by simpa using hc
    rw [if_neg hc]
    simp [hc']

theorem mem_foldl_constrain (g : Grid) (rules : RulesMap) :
    ∀ (l : List (Dir × Pos)) (init : List Nat) (t : Nat),
      t ∈ l.foldl (constrainByNeighbor g rules) init ↔
        t ∈ init ∧ ∀ dn ∈ l, ∀ tid r,
          (g.cells dn.2).collapsed = true →
          (g.cells dn.2).tileId = some tid →
          rules tid = some r → t ∈ dirGet r (oppositeDir dn.1)
  | [], init, t => by simp
  | dn :: l, init, t => by
      rw [List.foldl_cons, mem_foldl_constrain g rules l _ t,
        mem_constrainByNeighbor]
      constructor
      · rintro ⟨⟨h1, h2⟩, h3⟩
        refine ⟨h1, fun dn' hdn' => ?_⟩
        rcases List.mem_cons.1 hdn' with rfl | hdn'
        · exact h2
        · exact h3 dn' hdn'
      · rintro ⟨h1, h2⟩
        exact ⟨⟨h1, h2 dn (List.mem_cons_self _ _)⟩,
          fun dn' hdn' => h2 dn' (List.mem_cons_of_mem _ hdn')⟩

/-! ## Claim C5 -/

/-- Claim C5: the adjacency rules computed by the oracle are symmetric: for
every pair of tiles `A`, `B` of a `TileSet` (ids unique, as the extractor
guarantees) and every direction `dir`,
`B ∈ adjacency[A][dir] ↔ A ∈ adjacency[B][opposite(dir)]`. -/
theorem C5_adjacency_symmetric (tiles : List TileE)
    (hnd : (tiles.map TileE.id).Nodup)
    (A B : TileE) (hA : A ∈ tiles) (hB : B ∈ tiles) (dir : Dir)
    (rA rB : AdjacencyRulesE)
    (hrA : adjacencyGet tiles A.id = some rA)
    (hrB : adjacencyGet tiles B.id = some rB) :
    B.id ∈ dirGet rA dir ↔ A.id ∈ dirGet rB (oppositeDir dir) := by
  have hA' := adjacencyGet_eq_rulesFor tiles A hnd hA
  have hB' := adjacencyGet_eq_rulesFor tiles B hnd hB
  rw [hrA] at hA'
  rw [hrB] at hB'
  obtain rfl : rA = rulesFor tiles A := Option.some.inj hA'
  obtain rfl : rB = rulesFor tiles B := Option.some.inj hB'
  cases dir
  case up =>
    rw [show dirGet (rulesFor tiles A) Dir.up =
        (tiles.filter fun t => sigUp A = sigDown t).map TileE.id from rfl]
    rw [show dirGet (rulesFor tiles B) (oppositeDir Dir.up) =
        (tiles.filter fun t => sigDown B = sigUp t).map TileE.id from rfl]
    rw [mem_filter_map_id tiles B hnd hB, mem_filter_map_id tiles A hnd hA]
    exact eq_comm
  case down =>
    rw [show dirGet (rulesFor tiles A) Dir.down =
        (tiles.filter fun t => sigDown A = sigUp t).map TileE.id from rfl]
    rw [show dirGet (rulesFor tiles B) (oppositeDir Dir.down) =
        (tiles.filter fun t => sigUp B = sigDown t).map TileE.id from rfl]
    rw [mem_filter_map_id tiles B hnd hB, mem_filter_map_id tiles A hnd hA]
    exact eq_comm
  case left =>
    rw [show dirGet (rulesFor tiles A) Dir.left =
        (tiles.filter fun t => sigLeft A = sigRight t).map TileE.id from rfl]
    rw [show dirGet (rulesFor tiles B) (oppositeDir Dir.left) =
        (tiles.filter fun t => sigRight B = sigLeft t).map TileE.id from rfl]
    rw [mem_filter_map_id tiles B hnd hB, mem_filter_map_id tiles A hnd hA]
    exact eq_comm
  case right =>
    rw [show dirGet (rulesFor tiles A) Dir.right =
        (tiles.filter fun t => sigRight A = sigLeft t).map TileE.id from rfl]
    rw [show dirGet (rulesFor tiles B) (oppositeDir Dir.right) =
        (tiles.filter fun t => sigLeft B = sigRight t).map TileE.id from rfl]
    rw [mem_filter_map_id tiles B hnd hB, mem_filter_map_id tiles A hnd hA]
    exact eq_comm

/-- Witness for C5 on the concrete checkerboard tile set. -/
theorem C5_witness :
    checkerTile1.id ∈ dirGet ⟨[1], [1], [1], [1]⟩ Dir.right ↔
      checkerTile0.id ∈ dirGet ⟨[0], [0], [0], [0]⟩ (oppositeDir Dir.right) :=
  C5_adjacency_symmetric (tilesOf checkerSample 2) (by decide)
    checkerTile0 checkerTile1 (by decide) (by decide) Dir.right
    ⟨[1], [1], [1], [1]⟩ ⟨[0], [0], [0], [0]⟩ (by decide) (by decide)

/-! ## Claim C6 -/

/-- Claim C6: for a sample of dimensions WxH and tile size N ≥ 1, extraction
scans all W·H toroidal NxN windows (`windowAt` reads
`pixels[(x+dx) mod W][(y+dy) mod H]`); the returned tile list contains each
distinct pattern exactly once (`Nodup` plus completeness), in first-seen scan
order (mapping each kept pattern through the index of its first occurrence in
the scan is strictly increasing), and the per-tile frequencies sum to W·H. -/
theorem C6_extractor_guarantees (img : ImageDataL) (n : Nat) (hn : 1 ≤ n) :
    (extractPatterns img n).Nodup ∧
    (∀ p, p ∈ extractPatterns img n ↔ p ∈ scanWindows img n) ∧
    List.Pairwise
      (fun p q => firstOccurrence (scanWindows img n) p <
        firstOccurrence (scanWindows img n) q)
      (extractPatterns img n) ∧
    (scanWindows img n).length = img.width * img.height ∧
    (extractFrequencies img n).sum = img.width * img.height := by
  refine ⟨nodup_firstSeenFrom _ _, fun p => ?_,
    pairwise_firstOccurrence_firstSeenFrom _ _, scanWindows_length img n,
    extractFrequencies_sum img n⟩
  exact (mem_firstSeenFrom (scanWindows img n) [] p).trans (by simp)

/-- Witness for C6 on the concrete blue sample. -/
theorem C6_witness :
    1 ≤ 2 ∧ (extractFrequencies blueSample 2).sum = 2 * 2 :=
  ⟨by decide, ((C6_extractor_guarantees blueSample 2 (by decide)).2.2.2.2)⟩

/-! ## Claim C8 -/

/-- Claim C8: `computeNeighbors` evaluates the overlap rule for every ordered
pair including `A = B`, so a tile whose right-overlap signature equals its
own left-overlap signature is its own RIGHT neighbour; concretely, the single
tile extracted from a uniform one-colour sample has frequency W·H and itself
in `adjacency[id][dir]` for all four directions. -/
theorem C8_self_adjacency :
    (∀ (tiles : List TileE) (A : TileE) (r : AdjacencyRulesE),
        (tiles.map TileE.id).Nodup → A ∈ tiles →
        adjacencyGet tiles A.id = some r →
        (A.id ∈ r.right ↔ sigRight A = sigLeft A)) ∧
    extractPatterns blueSample 2 = [blueTile.data] ∧
    extractFrequencies blueSample 2 = [4] ∧
    adjacencyGet (tilesOf blueSample 2) 0 = some ⟨[0], [0], [0], [0]⟩ := by
  refine ⟨?_, by decide, by decide, by decide⟩
  intro tiles A r hnd hA hr
  have hA' := adjacencyGet_eq_rulesFor tiles A hnd hA
  rw [hr] at hA'
  obtain rfl : r = rulesFor tiles A := Option.some.inj hA'
  rw [show (rulesFor tiles A).right =
      (tiles.filter fun t => sigRight A = sigLeft t).map TileE.id from rfl]
  exact mem_filter_map_id tiles A hnd hA _

/-- Witness for C8's general component at the concrete uniform tile set. -/
theorem C8_witness :
    blueTile.id ∈ (AdjacencyRulesE.mk [0] [0] [0] [0]).right ↔
      sigRight blueTile = sigLeft blueTile :=
  C8_self_adjacency.1 (tilesOf blueSample 2) blueTile ⟨[0], [0], [0], [0]⟩
    (by decide) (by decide) (by decide)

/-! ## Claim C7 -/

/-- Claim C7: during propagation an uncollapsed cell's recomputed possibility
set is its current possibilities intersected with
`adjacency[nbr.tileId][opposite(d)]` over its collapsed orthogonal
neighbours (uncollapsed neighbours and neighbours without a rule entry
impose no constraint), and when the recomputed set is empty the worklist
assigns it and returns immediately, leaving the contradiction in place. -/
theorem C7_propagation_step :
    (∀ (g : Grid) (rules : RulesMap) (p : Pos) (t : Nat),
      t ∈ computeValidTilesForCellE g rules p ↔
        t ∈ (g.cells p).possibleTiles ∧
        ∀ dn ∈ getNeighborsE g p, ∀ tid r,
          (g.cells dn.2).collapsed = true →
          (g.cells dn.2).tileId = some tid →
          rules tid = some r →
          t ∈ dirGet r (oppositeDir dn.1)) ∧
    (∀ (rules : RulesMap) (fuel : Nat) (g : Grid) (stack visited : List Pos)
        (p : Pos),
      p ∉ visited → (g.cells p).collapsed = false →
      computeValidTilesForCellE g rules p = [] →
      (g.cells p).possibleTiles ≠ [] →
      propagateLoopE rules (fuel + 1) g (p :: stack) visited =
        narrowCell g rules p ∧
      ((narrowCell g rules p).cells p).possibleTiles = []) := by
  constructor
  · intro g rules p t
    exact mem_foldl_constrain g rules (getNeighborsE g p)
      (g.cells p).possibleTiles t
  · intro rules fuel g stack visited p hv hc hempty hne
    have hlen : (computeValidTilesForCellE g rules p).length <
        (g.cells p).possibleTiles.length := by
      rw [hempty]
      simpa [List.length_pos] using hne
    have hz : (computeValidTilesForCellE g rules p).length = 0 := by
      rw [hempty]; rfl
    constructor
    · rw [propagateLoopE, if_neg hv, if_neg (by simp [hc]), if_pos hlen,
        if_pos hz]
    · rw [narrowCell, setCell_cells_self]
      exact hempty

/-- Witness for C7 at a concrete two-tile grid: tile 1 collapsed to the left
of an uncollapsed cell holding only tile 0 makes the recomputed set empty,
and the loop stops at once with the empty set in place. -/
theorem C7_witness :
    (0 ∈ computeValidTilesForCellE
        (setCell (setCell (initializeGridE [0, 1] 2 2) (0, 0)
          ⟨true, some 1, [1]⟩) (1, 0) ⟨false, none, [0]⟩)
        rulesAB (1, 0) ↔
      (0 ∈ [0] ∧ ∀ dn ∈ getNeighborsE
          (setCell (setCell (initializeGridE [0, 1] 2 2) (0, 0)
            ⟨true, some 1, [1]⟩) (1, 0) ⟨false, none, [0]⟩) (1, 0),
        ∀ tid r,
          ((setCell (setCell (initializeGridE [0, 1] 2 2) (0, 0)
            ⟨true, some 1, [1]⟩) (1, 0) ⟨false, none, [0]⟩).cells dn.2).collapsed = true →
          ((setCell (setCell (initializeGridE [0, 1] 2 2) (0, 0)
            ⟨true, some 1, [1]⟩) (1, 0) ⟨false, none, [0]⟩).cells dn.2).tileId = some tid →
          rulesAB tid = some r →
          0 ∈ dirGet r (oppositeDir dn.1))) ∧
    propagateLoopE rulesAB 25
        (setCell (setCell (initializeGridE [0, 1] 2 2) (0, 0)
          ⟨true, some 1, [1]⟩) (1, 0) ⟨false, none, [0]⟩)
        [(1, 0)] [] =
      narrowCell (setCell (setCell (initializeGridE [0, 1] 2 2) (0, 0)
          ⟨true, some 1, [1]⟩) (1, 0) ⟨false, none, [0]⟩) rulesAB (1, 0) ∧
    ((narrowCell (setCell (setCell (initializeGridE [0, 1] 2 2) (0, 0)
          ⟨true, some 1, [1]⟩) (1, 0) ⟨false, none, [0]⟩) rulesAB
        (1, 0)).cells (1, 0)).possibleTiles = [] :=
  ⟨C7_propagation_step.1 _ rulesAB (1, 0) 0,
    C7_propagation_step.2 rulesAB 24 _ [] [] (1, 0)
      (by decide) (by decide) (by decide) (by decide)⟩

/-! ## Claim C10 -/

/-- Claim C10: a single call to `propagateConstraints` never changes any
cell's collapsed flag or tileId, only shrinks possibility sets, and leaves
every collapsed cell entirely unchanged. -/
theorem C10_propagate_frame (g : Grid) (rules : RulesMap) (start : Pos)
    (p : Pos) :
    ((propagateConstraintsE g rules start).cells p).collapsed =
      (g.cells p).collapsed ∧
    ((propagateConstraintsE g rules start).cells p).tileId =
      (g.cells p).tileId ∧
    ((propagateConstraintsE g rules start).cells p).possibleTiles ⊆
      (g.cells p).possibleTiles ∧
    ((g.cells p).collapsed = true →
      (propagateConstraintsE g rules start).cells p = g.cells p) :=
  (propagateConstraintsE_frame g rules start).2.2 p

/-- Witness for C10: the collapsed seed cell of a concrete propagation is
bit-for-bit unchanged. -/
theorem C10_witness :
    (propagateConstraintsE
        (setCell (initializeGridE [0, 1] 2 2) (0, 0) ⟨true, some 0, [0]⟩)
        rulesAB (0, 0)).cells (0, 0) =
      (setCell (initializeGridE [0, 1] 2 2) (0, 0)
        ⟨true, some 0, [0]⟩).cells (0, 0) :=
  (C10_propagate_frame
      (setCell (initializeGridE [0, 1] 2 2) (0, 0) ⟨true, some 0, [0]⟩)
      rulesAB (0, 0) (0, 0)).2.2.2 (by decide)

/-! ## Claim C2 -/

theorem collapsedInv_setSingleton (g : Grid) (p : Pos) (t : Nat)
    (hinv : CollapsedInv g) :
    CollapsedInv (setCell g p ⟨true, some t, [t]⟩) := by
  intro q hq
  by_cases hqp : q = p
  · subst hqp
    rw [setCell_cells_self]
    exact ⟨t, rfl, rfl⟩
  · rw [setCell_cells_ne _ _ _ _ hqp] at hq ⊢
    exact hinv q hq

theorem collapsedInv_of_frameLe {g g' : Grid} (hf : FrameLe g g')
    (hinv : CollapsedInv g) : CollapsedInv g' := by
  intro p hp
  have hcol : (g.cells p).collapsed = true := by
    rw [← (hf.2.2 p).1]
    exact hp
  rw [(hf.2.2 p).2.2.2 hcol]
  exact hinv p hcol

theorem recordCollapseE_grid (st : GenState) (p : Pos) (t : Nat) :
    (recordCollapseE st p t).grid = st.grid := by
  rw [recordCollapseE]
  split
  · rfl
  · rfl

/-- Counterexample to C2 as stated: immediately after `generate`'s seeding
phase on a one-tile set, every unseeded cell has a singleton possibility set
yet is uncollapsed with a null tileId, refuting
`|possible| = 1 ∧ tile_id = the unique element ⇒ collapsed`. -/
theorem C2_counterexample :
    ((attemptInitE [0] rulesSolo 3 3
        [⟨1, 2⟩, ⟨1, 2⟩, ⟨0, 1⟩]).1.grid.cells (0, 0)).possibleTiles = [0] ∧
    ((attemptInitE [0] rulesSolo 3 3
        [⟨1, 2⟩, ⟨1, 2⟩, ⟨0, 1⟩]).1.grid.cells (0, 0)).collapsed = false ∧
    ((attemptInitE [0] rulesSolo 3 3
        [⟨1, 2⟩, ⟨1, 2⟩, ⟨0, 1⟩]).1.grid.cells (0, 0)).tileId = none := by
  decide

/-- Claim C2 (amended): the forward direction
`collapsed ⇒ (possible = {tile_id})` is a real invariant: it holds of the
freshly initialized grid and is preserved by `collapseCell`, by
`propagateConstraints`, and by the backtracker's forced replay.  (The
converse fails: propagation and single-tile initialization leave uncollapsed
cells with singleton possibility sets, see the counterexample.) -/
theorem C2_collapsed_invariant :
    (∀ (tileIds : List Nat) (w h : Nat),
      CollapsedInv (initializeGridE tileIds w h)) ∧
    (∀ (st : GenState) (p : Pos), CollapsedInv st.grid →
      CollapsedInv (collapseCellE st p).grid) ∧
    (∀ (g : Grid) (rules : RulesMap) (start : Pos), CollapsedInv g →
      CollapsedInv (propagateConstraintsE g rules start)) ∧
    (∀ (rules : RulesMap) (g : Grid) (e : HistoryEntry), CollapsedInv g →
      CollapsedInv (forceReplayE rules g e)) := by
  refine ⟨?_, ?_, ?_, ?_⟩
  · intro tileIds w h p hp
    simp [initializeGridE] at hp
  · intro st p hinv
    rw [collapseCellE, recordCollapseE_grid]
    exact collapsedInv_setSingleton st.grid p _ hinv
  · intro g rules start hinv
    exact collapsedInv_of_frameLe (propagateConstraintsE_frame g rules start) hinv
  · intro rules g e hinv
    rw [forceReplayE]
    exact collapsedInv_of_frameLe
      (propagateConstraintsE_frame _ rules _)
      (collapsedInv_setSingleton g (e.x, e.y) e.tileId hinv)

/-- Witness for C2 (amended) at a concrete state: the invariant holds after
initializing, collapsing a cell and propagating on a concrete 2x2 grid. -/
theorem C2_witness :
    CollapsedInv (propagateConstraintsE
      (collapseCellE ⟨2, 2, [0, 1], rulesAB,
        initializeGridE [0, 1] 2 2, [], [], 0⟩ (0, 0)).grid rulesAB (0, 0)) :=
  C2_collapsed_invariant.2.2.1 _ rulesAB (0, 0)
    (C2_collapsed_invariant.2.1
      ⟨2, 2, [0, 1], rulesAB, initializeGridE [0, 1] 2 2, [], [], 0⟩ (0, 0)
      (C2_collapsed_invariant.1 [0, 1] 2 2))

/-! ## Claim C1 -/

/-- Counterexample to C1 as stated: on the tile set of a uniform 3x3 sample
(frequency 9, connectivity weight 5) the collapse chooser's weights are all
1, not `(3·frequency + connectivity)/4 = 8`. -/
theorem C1_counterexample :
    collapseWeights [0] ≠
      specBlendWeights (tilesOf blueSample3 2)
        (tileFrequenciesOf blueSample3 2) [0] := by
  have h1 : getFrequencyWeightE (tileFrequenciesOf blueSample3 2) 0 = 9 := by
    decide
  have h2 : computeTileWeightsE (tilesOf blueSample3 2) 0 = 5 := by
    decide
  simp only [collapseWeights, specBlendWeights, List.map_cons, List.map_nil,
    h1, h2]
  intro h
  have := List.head_eq_of_cons_eq h
  norm_num at this

/-- Claim C1 (amended): `collapseCell` gives every candidate the uniform
weight 1 (`possibilities.map(() => 1)`), so the weighted-random sort
comparator `random()·(b.weight − a.weight)` is identically zero and the
stable sort leaves the candidates in the cell's stored possibility order;
the chooser then takes the first candidate in that order passing the
one-step look-ahead, and if none passes it falls back to
`possibilities[0]`.  The `(3·frequency + connectivity)/4` blend appears only
in `findMinEntropyCell`'s entropy weights. -/
theorem C1_uniform_collapse_weights (g : Grid) (rules : RulesMap) (p : Pos)
    (hne : (g.cells p).possibleTiles ≠ []) :
    collapseWeights (g.cells p).possibleTiles =
      List.replicate (g.cells p).possibleTiles.length 1 ∧
    weightedTileOrder (g.cells p).possibleTiles = (g.cells p).possibleTiles ∧
    ((∃ t ∈ (g.cells p).possibleTiles, lookaheadOkE g rules p t) →
      lookaheadOkE g rules p (collapseChoiceE g rules p) = true ∧
      collapseChoiceE g rules p ∈ (g.cells p).possibleTiles) ∧
    ((∀ t ∈ (g.cells p).possibleTiles, ¬ lookaheadOkE g rules p t) →
      collapseChoiceE g rules p = (g.cells p).possibleTiles.headD 0) := by
  refine ⟨List.map_const' _ 1, rfl, ?_, ?_⟩
  · intro hex
    have hsome : ((g.cells p).possibleTiles.find?
        (lookaheadOkE g rules p)).isSome := by
      rw [List.find?_isSome]
      simpa using hex
    obtain ⟨t, hfind⟩ := Option.isSome_iff_exists.1 hsome
    have hch : collapseChoiceE g rules p = t := by
      rw [collapseChoiceE]
      rw [show weightedTileOrder (g.cells p).possibleTiles =
        (g.cells p).possibleTiles from rfl, hfind]
    rw [hch]
    exact ⟨List.find?_some hfind, List.mem_of_find?_eq_some hfind⟩
  · intro hall
    have hnone : (g.cells p).possibleTiles.find?
        (lookaheadOkE g rules p) = none := by
      rw [List.find?_eq_none]
      intro t ht
      simpa using hall t ht
    rw [collapseChoiceE]
    rw [show weightedTileOrder (g.cells p).possibleTiles =
      (g.cells p).possibleTiles from rfl, hnone]

/-- Witness for C1 (amended) at a concrete grid: the chosen tile passes
look-ahead and belongs to the possibility set. -/
theorem C1_witness :
    lookaheadOkE (initializeGridE [0, 1] 2 2) rulesAB (0, 0)
        (collapseChoiceE (initializeGridE [0, 1] 2 2) rulesAB (0, 0)) = true ∧
      collapseChoiceE (initializeGridE [0, 1] 2 2) rulesAB (0, 0) ∈
        ((initializeGridE [0, 1] 2 2).cells (0, 0)).possibleTiles :=
  (C1_uniform_collapse_weights (initializeGridE [0, 1] 2 2) rulesAB (0, 0)
      (by decide)).2.2.1 ⟨0, by decide, by decide⟩

/-! ## Claim C3 -/

/-- Counterexample to C3 as stated: on a 9x9 grid (81 cells > 50) the
seeding phase of an attempt (stream chosen so the seed lands on (4,4) with
tile 0) leaves the corners uncollapsed — no corner seeding happens — and the
seed's orthogonal neighbour keeps both tiles although propagation under
these rules would narrow it to tile 0 alone — no propagation happens. -/
theorem C3_counterexample :
    50 < 9 * 9 ∧
    ((attemptInitE [0, 1] rulesAB 9 9
        [⟨1, 2⟩, ⟨1, 2⟩, ⟨0, 1⟩]).1.grid.cells (4, 4)) =
      ⟨true, some 0, [0]⟩ ∧
    ((attemptInitE [0, 1] rulesAB 9 9
        [⟨1, 2⟩, ⟨1, 2⟩, ⟨0, 1⟩]).1.grid.cells (0, 0)).collapsed = false ∧
    ((attemptInitE [0, 1] rulesAB 9 9
        [⟨1, 2⟩, ⟨1, 2⟩, ⟨0, 1⟩]).1.grid.cells (8, 8)).collapsed = false ∧
    ((attemptInitE [0, 1] rulesAB 9 9
        [⟨1, 2⟩, ⟨1, 2⟩, ⟨0, 1⟩]).1.grid.cells (4, 3)).possibleTiles =
      [0, 1] := by
  decide

/-- Claim C3 (amended): at the start of every attempt, `generate`
reinitializes grid, history, snapshots and `recentContradictions`, then
force-collapses exactly one `Math.random`-chosen cell to a
`Math.random`-chosen tile and records it in history; it does NOT propagate
after this seed, and no corner / scattered / coarse-grid seeding occurs
(the `seedEdges` method implementing those strategies is never called). -/
theorem C3_seed_spec (tileIds : List Nat) (rules : RulesMap) (w h : Nat)
    (q1 q2 q3 : RandVal) (rest : List RandVal) :
    (attemptInitE tileIds rules w h (q1 :: q2 :: q3 :: rest)).1.grid.cells
        (randFloor q1 w, randFloor q2 h) =
      ⟨true, some (tileIds.getD (randFloor q3 tileIds.length) 0),
        [tileIds.getD (randFloor q3 tileIds.length) 0]⟩ ∧
    (∀ p : Pos, p ≠ (randFloor q1 w, randFloor q2 h) →
      (attemptInitE tileIds rules w h
        (q1 :: q2 :: q3 :: rest)).1.grid.cells p = ⟨false, none, tileIds⟩) ∧
    (attemptInitE tileIds rules w h (q1 :: q2 :: q3 :: rest)).1.history =
      [⟨randFloor q1 w, randFloor q2 h,
        tileIds.getD (randFloor q3 tileIds.length) 0⟩] ∧
    (attemptInitE tileIds rules w h (q1 :: q2 :: q3 :: rest)).1.snapshots =
      [] ∧
    (attemptInitE tileIds rules w h
        (q1 :: q2 :: q3 :: rest)).1.recentContradictions = 0 ∧
    (attemptInitE tileIds rules w h (q1 :: q2 :: q3 :: rest)).2 = rest := by
  refine ⟨?_, ?_, ?_, ?_, ?_, ?_⟩
  · simp [attemptInitE, rngNext, recordCollapseE, saveSnapshotE,
      initializeGridE, setCell]
  · intro p hp
    simp [attemptInitE, rngNext, recordCollapseE, saveSnapshotE,
      initializeGridE, setCell, hp]
  · simp [attemptInitE, rngNext, recordCollapseE, saveSnapshotE,
      initializeGridE]
  · simp [attemptInitE, rngNext, recordCollapseE, saveSnapshotE,
      initializeGridE]
  · simp [attemptInitE, rngNext, recordCollapseE, saveSnapshotE,
      initializeGridE]
  · simp [attemptInitE, rngNext, recordCollapseE, saveSnapshotE,
      initializeGridE]

/-- Witness for C3 (amended): a non-seeded cell of a concrete attempt start
is exactly a fresh cell. -/
theorem C3_witness :
    (attemptInitE [0, 1] rulesAB 3 3
        [⟨1, 2⟩, ⟨1, 2⟩, ⟨0, 1⟩]).1.grid.cells (0, 0) =
      ⟨false, none, [0, 1]⟩ :=
  (C3_seed_spec [0, 1] rulesAB 3 3 ⟨1, 2⟩ ⟨1, 2⟩ ⟨0, 1⟩ []).2.1 (0, 0)
    (by decide)

/-! ## Claim C4 -/

/-- Claim C4 (evaluation at the failing configuration): the synthesis output
varies with the ambient `Math.random` stream — two different streams give
different seeding decisions for identical inputs.  The repository's
`generate` draws every random value from the global, unseedable
`Math.random` and exposes no seed parameter anywhere, so no
(sample, N, width, height, seed) tuple can reproduce a run. -/
theorem C4_ambient_stream_dependence :
    (attemptInitE [0, 1] rulesAB 3 3
        [⟨0, 1⟩, ⟨0, 1⟩, ⟨0, 1⟩]).1.history ≠
      (attemptInitE [0, 1] rulesAB 3 3
        [⟨1, 2⟩, ⟨1, 2⟩, ⟨1, 2⟩]).1.history := by
  decide

/-! ## Claim C9 -/

theorem findSnapshotE_eq_none :
    ∀ (snaps : List SnapshotE) (n : Nat),
      findSnapshotE snaps n = none ↔ ∀ s ∈ snaps, ¬ s.historyLength ≤ n
  | [], n => by simp [findSnapshotE]
  | s :: rest, n => by
      rw [findSnapshotE]
      cases hrest : findSnapshotE rest n with
      | some kf =>
          simp only
          constructor
          · intro h
            cases h
          · intro hall
            have : findSnapshotE rest n = none :=
              (findSnapshotE_eq_none rest n).2 fun s' hs' =>
                hall s' (List.mem_cons_of_mem _ hs')
            rw [hrest] at this
            cases this
      | none =>
          simp only
          by_cases hs : s.historyLength ≤ n
          · rw [if_pos hs]
            constructor
            · intro h
              cases h
            · intro hall
              exact absurd hs (hall s (List.mem_cons_self _ _))
          · rw [if_neg hs]
            constructor
            · intro _ s' hs'
              rcases List.mem_cons.1 hs' with rfl | hs'
              · exact hs
              · exact (findSnapshotE_eq_none rest n).1 hrest s' hs'
            · intro _
              rfl

theorem findSnapshotE_eq_some :
    ∀ (snaps : List SnapshotE) (n : Nat) (kept : List SnapshotE)
      (f : SnapshotE), findSnapshotE snaps n = some (kept, f) →
      ∃ i, ∃ hi : i < snaps.length,
        snaps.get ⟨i, hi⟩ = f ∧ kept = snaps.take (i + 1) ∧
        f.historyLength ≤ n ∧
        ∀ j, ∀ hj : j < snaps.length, i < j →
          ¬ (snaps.get ⟨j, hj⟩).historyLength ≤ n
  | [], n, kept, f => by
      intro h
      cases h
  | s :: rest, n, kept, f => by
      intro h
      rw [findSnapshotE] at h
      cases hrest : findSnapshotE rest n with
      | some kf =>
          obtain ⟨kept', f'⟩ := kf
          rw [hrest] at h
          have h' := Option.some.inj h
          have hk : kept = s :: kept' := (congrArg Prod.fst h').symm
          have hf : f = f' := (congrArg Prod.snd h').symm
          subst hk
          subst hf
          obtain ⟨i, hi, hget, hkept, hcond, hlater⟩ :=
            findSnapshotE_eq_some rest n kept' f hrest
          refine ⟨i + 1, Nat.succ_lt_succ hi, hget, by simp [hkept], hcond,
            fun j hj hij => ?_⟩
          cases j with
          | zero => exact absurd hij (Nat.not_lt_zero _)
          | succ j' =>
              exact hlater j' (Nat.lt_of_succ_lt_succ hj)
                (Nat.lt_of_succ_lt_succ hij)
      | none =>
          rw [hrest] at h
          by_cases hs : s.historyLength ≤ n
          · rw [if_pos hs] at h
            have h' := Option.some.inj h
            have hk : kept = [s] := (congrArg Prod.fst h').symm
            have hf : f = s := (congrArg Prod.snd h').symm
            subst hk
            subst hf
            refine ⟨0, Nat.succ_pos _, rfl, rfl, hs, ?_⟩
            intro j hj hij
            cases j with
            | zero => exact absurd hij (Nat.lt_irrefl 0)
            | succ j' =>
                exact (findSnapshotE_eq_none rest n).1 hrest _
                  (List.get_mem rest j' (Nat.lt_of_succ_lt_succ hj))
          · rw [if_neg hs] at h
            cases h

theorem backtrackE_rc (st : GenState) :
    (backtrackE st).recentContradictions = st.recentContradictions := by
  simp only [backtrackE]
  split
  · rfl
  · split <;> rfl

/-- Claim C9: the adaptive rollback removes 2 history entries for 0–1 recent
contradictions, 4 for 2–3, 8 for 4–6 and `min(32, len/2)` beyond (each
capped by the history length); it restores the most recent snapshot whose
captured history length is at most the new history length, discarding later
snapshots, and replays the remaining entries by forcing each recorded cell
and propagating (reinitializing and replaying everything when no snapshot
qualifies); `recent_contradictions` is bumped on contradiction, decremented
on success, floored at 0. -/
theorem C9_backtrack_spec :
    (∀ rc len : Nat,
      (rc ≤ 1 → stepsToRemoveE rc len = min 2 len) ∧
      ((rc = 2 ∨ rc = 3) → stepsToRemoveE rc len = min 4 len) ∧
      ((4 ≤ rc ∧ rc ≤ 6) → stepsToRemoveE rc len = min 8 len) ∧
      (6 < rc → stepsToRemoveE rc len = min 32 (len / 2))) ∧
    (∀ st : GenState, st.history.length ≠ 0 →
      (backtrackE st).history = st.history.take (st.history.length -
        stepsToRemoveE st.recentContradictions st.history.length) ∧
      (match findSnapshotE st.snapshots
          (st.history.length -
            stepsToRemoveE st.recentContradictions st.history.length) with
       | some (kept, snap) =>
           (backtrackE st).snapshots = kept ∧
           (backtrackE st).grid =
             ((backtrackE st).history.drop snap.historyLength).foldl
               (forceReplayE st.rules) snap.grid
       | none =>
           (backtrackE st).snapshots = st.snapshots ∧
           (backtrackE st).grid = (backtrackE st).history.foldl
             (forceReplayE st.rules)
             (initializeGridE st.tileIds st.width st.height))) ∧
    (∀ (snaps : List SnapshotE) (n : Nat) (kept : List SnapshotE)
        (f : SnapshotE),
      findSnapshotE snaps n = some (kept, f) →
      ∃ i, ∃ hi : i < snaps.length,
        snaps.get ⟨i, hi⟩ = f ∧ kept = snaps.take (i + 1) ∧
        f.historyLength ≤ n ∧
        ∀ j, ∀ hj : j < snaps.length, i < j →
          ¬ (snaps.get ⟨j, hj⟩).historyLength ≤ n) ∧
    (∀ (snaps : List SnapshotE) (n : Nat),
      findSnapshotE snaps n = none → ∀ s ∈ snaps, ¬ s.historyLength ≤ n) ∧
    (∀ (st : GenState) (backtracks maxB : Nat),
      ((getContradictionCellE st.grid).isSome →
        (contradictionStepE st backtracks maxB).1.recentContradictions =
          st.recentContradictions + 1) ∧
      (getContradictionCellE st.grid = none →
        (contradictionStepE st backtracks maxB).1.recentContradictions =
          st.recentContradictions - 1 ∧
        (st.recentContradictions = 0 →
          (contradictionStepE st backtracks maxB).1.recentContradictions
            = 0))) := by
  refine ⟨?_, ?_, findSnapshotE_eq_some,
    fun snaps n h => (findSnapshotE_eq_none snaps n).1 h, ?_⟩
  · intro rc len
    refine ⟨?_, ?_, ?_, ?_⟩
    · intro h
      rw [stepsToRemoveE, if_neg (by omega), if_neg (by omega),
        if_neg (by omega)]
    · intro h
      rw [stepsToRemoveE, if_neg (by omega), if_neg (by omega),
        if_pos (by omega)]
    · intro h
      rw [stepsToRemoveE, if_neg (by omega), if_pos (by omega)]
    · intro h
      rw [stepsToRemoveE, if_pos h]
  · intro st hlen
    simp only [backtrackE, if_neg hlen]
    have htk : (st.history.take (st.history.length -
        stepsToRemoveE st.recentContradictions st.history.length)).length =
        st.history.length -
          stepsToRemoveE st.recentContradictions st.history.length := by
      rw [List.length_take]
      exact Nat.min_eq_left (Nat.sub_le _ _)
    rw [htk]
    cases hfind : findSnapshotE st.snapshots (st.history.length -
        stepsToRemoveE st.recentContradictions st.history.length) with
    | some kf =>
        obtain ⟨kept, snap⟩ := kf
        simp only [hfind]
        exact ⟨by trivial, by trivial, by trivial⟩
    | none =>
        simp only [hfind]
        exact ⟨by trivial, by trivial, by trivial⟩
  · intro st backtracks maxB
    constructor
    · intro hsome
      cases hcc : getContradictionCellE st.grid with
      | none =>
          rw [hcc] at hsome
          cases hsome
      | some c =>
          simp only [contradictionStepE, hcc]
          split
          · exact backtrackE_rc _
          · rfl
    · intro hcc
      simp only [contradictionStepE, hcc]
      exact ⟨by trivial, fun h0 => by rw [h0]⟩

/-- Witness for C9: the schedule at a concrete recent-contradiction count
and history length. -/
theorem C9_witness : stepsToRemoveE 0 5 = min 2 5 :=
  (C9_backtrack_spec.1 0 5).1 (by decide)

end WfcTs
